import Mathlib

/-!
Shallow embedding of the audio-extraction core of this repository
(`src/services/audioService.ts`, the `Waveform` component, and the
selection logic of `src/App.tsx`).

Numbers: JavaScript numeric values that the code manipulates (times in
seconds, sample values, intermediate products) are modelled as exact
rationals (`ℚ`); sample indices, byte offsets and sizes as `ℕ`/`ℤ` with
the explicit wrap-arounds that `DataView` writes and `|0` perform.
Byte sequences are `List ℕ` with every entry < 256.
-/

/- ---------------------------------------------------------------
   Byte-level helpers: little-endian writes of `DataView.setUint16`,
   `setUint32` (which wrap their argument modulo 2^16 / 2^32) and
   `setInt16` (two's complement), and the JavaScript `|0` operator
   (truncate toward zero, then wrap into a signed 32-bit integer).
   --------------------------------------------------------------- -/

/-- Little-endian bytes of a 16-bit unsigned write (`DataView.setUint16`),
wrapping the argument modulo 2^16. -/
def u16le (n : ℕ) : List ℕ := [n % 256, n / 256 % 256]

/-- Little-endian bytes of a 32-bit unsigned write (`DataView.setUint32`),
wrapping the argument modulo 2^32. -/
def u32le (n : ℕ) : List ℕ := [n % 256, n / 256 % 256, n / 2 ^ 16 % 256, n / 2 ^ 24 % 256]

/-- Little-endian bytes of a 16-bit signed write (`DataView.setInt16`):
two's-complement wrap modulo 2^16. -/
def i16le (v : ℤ) : List ℕ := u16le (v % 65536).toNat

/-- Truncation toward zero of a rational, the `ToInteger` step of the
JavaScript `|0` operator applied to a (finite) number. -/
def truncInt (q : ℚ) : ℤ := if q < 0 then ⌈q⌉ else ⌊q⌋

/-- The JavaScript `|0` operator on a finite number: truncate toward zero,
then wrap into the signed 32-bit range. -/
def toInt32 (q : ℚ) : ℤ := (truncInt q + 2 ^ 31) % 2 ^ 32 - 2 ^ 31

/- ---------------------------------------------------------------
   Data model: a decoded sample buffer (the Web Audio `AudioBuffer`
   as the code uses it).
   --------------------------------------------------------------- -/

/-- A decoded multi-channel sample buffer: `sampleRate` in Hz,
`numberOfChannels`, `length` in frames, and the per-channel sample data. -/
structure AudioBuffer where
  sampleRate : ℕ
  numberOfChannels : ℕ
  length : ℕ
  channels : List (List ℚ)
deriving Repr, DecidableEq

/-- Well-formedness: there are `numberOfChannels` channels and every channel
holds exactly `length` samples (the `AudioBuffer` invariant). -/
def AudioBuffer.WF (b : AudioBuffer) : Prop :=
  b.channels.length = b.numberOfChannels ∧ ∀ c ∈ b.channels, c.length = b.length

instance (b : AudioBuffer) : Decidable b.WF := by
  unfold AudioBuffer.WF; infer_instance

/-- `buffer.getChannelData(i)`. -/
def AudioBuffer.channelData (b : AudioBuffer) (i : ℕ) : List ℚ := b.channels.getD i []

/- ---------------------------------------------------------------
   `AudioService.extractClip` (src/services/audioService.ts, lines 16-45)
   --------------------------------------------------------------- -/

/-- In-bounds read of a `Float32Array` at a nonnegative index.  (For a
negative index JavaScript would produce `undefined`, stored as `NaN`;
`ℚ` has no `NaN`, so the negative-index case — reachable only for
`startTime < 0`, outside the spec's precondition — is modelled as 0.) -/
def jsReadQ (data : List ℚ) (idx : ℤ) : ℚ :=
  if 0 ≤ idx then data.getD idx.toNat 0 else 0

/-- The buffer-slicing part of `extractClip` (lines 17-42): compute
`startSample = ⌊startTime·sampleRate⌋`, `endSample = ⌊endTime·sampleRate⌋`,
fail when `frameCount = endSample - startSample ≤ 0`, otherwise build a new
zero-initialised buffer of `frameCount` frames and copy, per channel, the
source frames whose index stays below the source channel's length. -/
def extractBuffer (buffer : AudioBuffer) (startTime endTime : ℚ) :
    Except String AudioBuffer :=
  let sampleRate := buffer.sampleRate
  let startSample : ℤ := ⌊startTime * sampleRate⌋
  let endSample : ℤ := ⌊endTime * sampleRate⌋
  let frameCount : ℤ := endSample - startSample
  if frameCount ≤ 0 then .error "Invalid time range"
  else
    let fc := frameCount.toNat
    .ok
      { sampleRate := sampleRate
        numberOfChannels := buffer.numberOfChannels
        length := fc
        channels :=
          (List.range buffer.numberOfChannels).map fun i =>
            let channelData := buffer.channelData i
            (List.range fc).map fun (j : ℕ) =>
              if startSample + (j : ℤ) < (channelData.length : ℤ) then
                jsReadQ channelData (startSample + (j : ℤ))
              else 0 }

/- ---------------------------------------------------------------
   `AudioService.bufferToWav` (src/services/audioService.ts, lines 50-104)
   --------------------------------------------------------------- -/

/-- Clamp a sample to `[-1, 1]`: `Math.max(-1, Math.min(1, s))` (line 84). -/
def clamp (s : ℚ) : ℚ := max (-1) (min 1 s)

/-- The sample conversion of line 86, exactly as written:
`sample = (0.5 + sample < 0 ? sample * 32768 : sample * 32767) | 0`.
JavaScript operator precedence parses the condition as
`(0.5 + sample) < 0`, and `|0` truncates toward zero. -/
def convertSample (s : ℚ) : ℤ :=
  toInt32 (if 1 / 2 + clamp s < 0 then clamp s * 32768 else clamp s * 32767)

/-- The bytes one frame of the interleaving loop (lines 81-91) writes:
all channels of frame `pos`, each as a little-endian signed 16-bit value. -/
def frameBytes (b : AudioBuffer) (pos : ℕ) : List ℕ :=
  (List.range b.numberOfChannels).flatMap fun i =>
    i16le (convertSample ((b.channelData i).getD pos 0))

/-- The 44-byte WAV header written by lines 62-76.  `length` is the total
byte length `abuffer.length * numOfChan * 2 + 44`; the data-chunk length
field is written as `length - pos - 4` with the cursor `pos = 40`. -/
def wavHeader (b : AudioBuffer) : List ℕ :=
  let numOfChan := b.numberOfChannels
  let length := b.length * numOfChan * 2 + 44
  u32le 0x46464952 ++
  u32le (length - 8) ++
  u32le 0x45564157 ++
  u32le 0x20746d66 ++
  u32le 16 ++
  u16le 1 ++
  u16le numOfChan ++
  u32le b.sampleRate ++
  u32le (b.sampleRate * 2 * numOfChan) ++
  u16le (numOfChan * 2) ++
  u16le 16 ++
  u32le 0x61746164 ++
  u32le (length - 40 - 4)

/-- `bufferToWav`: the header followed by the interleaved samples, frame
index ascending, channels inner. -/
def bufferToWav (b : AudioBuffer) : List ℕ :=
  wavHeader b ++ (List.range b.length).flatMap (frameBytes b)

/-- The whole of `extractClip`: slice, then encode the slice to WAV bytes. -/
def extractClip (buffer : AudioBuffer) (startTime endTime : ℚ) :
    Except String (List ℕ) :=
  (extractBuffer buffer startTime endTime).map bufferToWav

/- ---------------------------------------------------------------
   `AudioService.formatTime` (lines 106-111) and the download filename
   (src/App.tsx, line 195).
   --------------------------------------------------------------- -/

/-- The JavaScript `%` operator on numbers: remainder with the sign of the
dividend, `a - b * trunc (a / b)`. -/
def jsMod (a b : ℚ) : ℚ := a - b * truncInt (a / b)

/-- `String.prototype.padStart(n, c)`: left-pad with `c` up to length `n`. -/
def padStart (s : String) (n : ℕ) (c : Char) : String :=
  if n ≤ s.length then s else String.mk (List.replicate (n - s.length) c) ++ s

/-- `formatTime`: `mins = ⌊s/60⌋`, `secs = ⌊s % 60⌋`, `ms = ⌊(s % 1)·100⌋`,
rendered as `mins:secs.ms` with `secs` and `ms` padded to two digits. -/
def formatTime (seconds : ℚ) : String :=
  let mins := ⌊seconds / 60⌋
  let secs := ⌊jsMod seconds 60⌋
  let ms := ⌊jsMod seconds 1 * 100⌋
  toString mins ++ ":" ++ padStart (toString secs) 2 '0' ++ "." ++
    padStart (toString ms) 2 '0'

/-- The download name built in `handleExtract` (App.tsx line 195). -/
def extractFilename (start stop : ℚ) : String :=
  "clip_" ++ formatTime start ++ "-" ++ formatTime stop ++ ".wav"

/- ---------------------------------------------------------------
   The `Waveform` component (src/components/Waveform.tsx): per-pixel
   min/max downsampling (lines 145-173) and the pixel/time maps
   (lines 179-180, 197 and 221-227).
   --------------------------------------------------------------- -/

/-- `step = Math.ceil(data.length / width)` (line 148), as a natural
number (the code divides two nonnegative numbers exactly). -/
def downsampleStep (b : AudioBuffer) (width : ℕ) : ℕ :=
  (⌈((b.channelData 0).length : ℚ) / width⌉).toNat

/-- The inner loop of lines 164-170 for one pixel column: start from the
sentinel `(min, max) = (1, -1)` and scan `data[base], …, data[base+step-1]`.
An out-of-range JavaScript read yields `undefined`, against which both
comparisons are false, so the accumulator is unchanged — modelled by the
`none` branch. -/
def minMaxStep (data : List ℚ) (base step : ℕ) : ℚ × ℚ :=
  (List.range step).foldl
    (fun mm j =>
      match data[base + j]? with
      | none => mm
      | some datum =>
          (if datum < mm.1 then datum else mm.1,
           if datum > mm.2 then datum else mm.2))
    (1, -1)

/-- The per-pixel `(min, max)` pairs the draw loop computes over the first
channel (lines 147-170). -/
def downsample (b : AudioBuffer) (width : ℕ) : List (ℚ × ℚ) :=
  let data := b.channelData 0
  let step := downsampleStep b width
  (List.range width).map fun i => minMaxStep data (i * step) step

/-- Time to pixel: `(time / duration) * width` (lines 179-180 and 197). -/
def timeToPixel (duration width t : ℚ) : ℚ := t / duration * width

/-- Pixel to time: `handleClick` computes `percent = x / rect.width` and
seeks to `percent * duration` (lines 225-226). -/
def pixelToTime (duration width x : ℚ) : ℚ := x / width * duration

/- ---------------------------------------------------------------
   Selection-derived time range (src/App.tsx, lines 40-54).
   --------------------------------------------------------------- -/

/-- A `[start, end]` time range in seconds (`end` is a Lean keyword, so the
field is called `stop`). -/
structure TimeRange where
  start : ℚ
  stop : ℚ
deriving Repr, DecidableEq

/-- A transcript segment as returned by the transcription boundary
(`{id, text, start, end}`). -/
structure TranscriptSegment where
  id : ℤ
  text : String
  start : ℚ
  stop : ℚ
deriving Repr, DecidableEq

/-- The effect on `selectionRange` of the `useEffect` at App.tsx lines 40-54:
an empty selection clears the range; otherwise the selected ids are sorted
ascending, the segments carrying the smallest and the largest id are looked
up, and on success the range becomes `[firstSeg.start, lastSeg.end]`
(on a failed lookup the previous value is left in place). -/
def updateSelectionRange (prev : Option TimeRange)
    (transcript : List TranscriptSegment) (ids : List ℤ) : Option TimeRange :=
  if ids.length = 0 then none
  else
    let sorted := ids.mergeSort fun a b => decide (a ≤ b)
    match transcript.find? fun s => s.id == sorted.headI,
          transcript.find? fun s => s.id == sorted.getLastD 0 with
    | some firstSeg, some lastSeg => some ⟨firstSeg.start, lastSeg.stop⟩
    | _, _ => prev

/- ---------------------------------------------------------------
   Spec-side definition used to compare against the code (claim C1).
   --------------------------------------------------------------- -/

/-- The sample conversion as the specification words it: the clamped sample
is mapped through `round_toward_negative_infinity(s < 0 ? s·32768 : s·32767)`.
This definition follows the spec's words, not the source; it exists to be
compared with `convertSample`. -/
def specConvertSample (s : ℚ) : ℤ :=
  if clamp s < 0 then ⌊clamp s * 32768⌋ else ⌊clamp s * 32767⌋

/- ---------------------------------------------------------------
   Concrete buffers used by witnesses and counterexamples.
   --------------------------------------------------------------- -/

/-- 1 channel, 8000 Hz, 10 all-zero frames (the spec's header-exactness
example). -/
def zeroBuf : AudioBuffer :=
  { sampleRate := 8000, numberOfChannels := 1, length := 10
    channels := [List.replicate 10 0] }

/-- 1 channel, 44100 Hz, 22050 all-zero frames (the spec's end-to-end
length example). -/
def monoBuf22050 : AudioBuffer :=
  { sampleRate := 44100, numberOfChannels := 1, length := 22050
    channels := [List.replicate 22050 0] }

/-- A single-frame buffer holding the sample -1/4. -/
def quarterBuf : AudioBuffer :=
  { sampleRate := 8000, numberOfChannels := 1, length := 1
    channels := [[-(1 / 4)]] }

/-- A small buffer at 10 Hz used by the extraction examples. -/
def tinyBuf : AudioBuffer :=
  { sampleRate := 10, numberOfChannels := 1, length := 2
    channels := [[1 / 2, 1 / 3]] }

/- ---------------------------------------------------------------
   Shared helper lemmas.
   --------------------------------------------------------------- -/

lemma getD_map_range {α : Type} (n : ℕ) (f : ℕ → α) (dflt : α) (i : ℕ) (h : i < n) :
    ((List.range n).map f).getD i dflt = f i := by
  rw [List.getD_eq_getElem?_getD, List.getElem?_map, List.getElem?_range h]
  rfl

lemma channelData_length_le (b : AudioBuffer) (hwf : b.WF) (i : ℕ) :
    (b.channelData i).length ≤ b.length := by
  unfold AudioBuffer.channelData
  rcases lt_or_ge i b.channels.length with h | h
  · rw [List.getD_eq_getElem?_getD, List.getElem?_eq_getElem h]
    exact le_of_eq (hwf.2 _ (List.getElem_mem h))
  · rw [List.getD_eq_getElem?_getD, List.getElem?_eq_none h]
    exact Nat.zero_le _

lemma channelData_length_eq (b : AudioBuffer) (hwf : b.WF) (i : ℕ)
    (hi : i < b.numberOfChannels) : (b.channelData i).length = b.length := by
  unfold AudioBuffer.channelData
  have h : i < b.channels.length := by rw [hwf.1]; exact hi
  rw [List.getD_eq_getElem?_getD, List.getElem?_eq_getElem h]
  exact hwf.2 _ (List.getElem_mem h)

lemma extractBuffer_eq (b : AudioBuffer) (s e : ℚ) :
    extractBuffer b s e =
      if ⌊e * b.sampleRate⌋ - ⌊s * b.sampleRate⌋ ≤ 0 then
        .error "Invalid time range"
      else
        .ok
          { sampleRate := b.sampleRate
            numberOfChannels := b.numberOfChannels
            length := (⌊e * b.sampleRate⌋ - ⌊s * b.sampleRate⌋).toNat
            channels :=
              (List.range b.numberOfChannels).map fun i =>
                (List.range (⌊e * b.sampleRate⌋ - ⌊s * b.sampleRate⌋).toNat).map
                  fun (j : ℕ) =>
                    if ⌊s * b.sampleRate⌋ + (j : ℤ) < ((b.channelData i).length : ℤ) then
                      jsReadQ (b.channelData i) (⌊s * b.sampleRate⌋ + (j : ℤ))
                    else 0 } := rfl

lemma extractBuffer_ok (b : AudioBuffer) (s e : ℚ)
    (h : 0 < ⌊e * b.sampleRate⌋ - ⌊s * b.sampleRate⌋) :
    extractBuffer b s e = .ok
      { sampleRate := b.sampleRate
        numberOfChannels := b.numberOfChannels
        length := (⌊e * b.sampleRate⌋ - ⌊s * b.sampleRate⌋).toNat
        channels :=
          (List.range b.numberOfChannels).map fun i =>
            (List.range (⌊e * b.sampleRate⌋ - ⌊s * b.sampleRate⌋).toNat).map
              fun (j : ℕ) =>
                if ⌊s * b.sampleRate⌋ + (j : ℤ) < ((b.channelData i).length : ℤ) then
                  jsReadQ (b.channelData i) (⌊s * b.sampleRate⌋ + (j : ℤ))
                else 0 } := by
  rw [extractBuffer_eq, if_neg (by omega)]

lemma extractBuffer_error (b : AudioBuffer) (s e : ℚ)
    (h : ⌊e * b.sampleRate⌋ - ⌊s * b.sampleRate⌋ ≤ 0) :
    extractBuffer b s e = .error "Invalid time range" := by
  rw [extractBuffer_eq, if_pos h]

/-- C2 claim as stated fails: `endTime > startTime` does not make the frame
count positive.  At 10 Hz the range `[0.01, 0.02)` has
`⌊0.2⌋ - ⌊0.1⌋ = 0` frames and `extractClip` throws. -/
theorem extract_counterexample_order_not_enough :
    (1 / 100 : ℚ) < 2 / 100 ∧
    extractBuffer tinyBuf (1 / 100) (2 / 100) = .error "Invalid time range" := by
  constructor
  · norm_num
  · apply extractBuffer_error
    have h1 : ⌊(1 / 100 : ℚ) * (tinyBuf.sampleRate : ℚ)⌋ = 0 := by
      show ⌊(1 / 100 : ℚ) * ((10 : ℕ) : ℚ)⌋ = 0
      norm_num
    have h2 : ⌊(2 / 100 : ℚ) * (tinyBuf.sampleRate : ℚ)⌋ = 0 := by
      show ⌊(2 / 100 : ℚ) * ((10 : ℕ) : ℚ)⌋ = 0
      norm_num
    rw [h1, h2]
    omega

/-- C2, amended: whenever the computed frame count
`⌊endTime·sampleRate⌋ - ⌊startTime·sampleRate⌋` is positive, `extract`
succeeds and returns a buffer with exactly that frame count and the
input's `sampleRate` and `channelCount` (and one channel sequence of that
length per channel). -/
theorem extract_success_shape :
    ∀ (b : AudioBuffer) (s e : ℚ),
      0 < ⌊e * b.sampleRate⌋ - ⌊s * b.sampleRate⌋ →
      ∃ nb, extractBuffer b s e = .ok nb
        ∧ nb.length = (⌊e * b.sampleRate⌋ - ⌊s * b.sampleRate⌋).toNat
        ∧ nb.sampleRate = b.sampleRate
        ∧ nb.numberOfChannels = b.numberOfChannels
        ∧ nb.channels.length = nb.numberOfChannels
        ∧ ∀ c ∈ nb.channels, c.length = nb.length := by
  intro b s e h
  refine ⟨_, extractBuffer_ok b s e h, rfl, rfl, rfl, by simp, ?_⟩
  intro c hc
  simp only [List.mem_map, List.mem_range] at hc
  obtain ⟨i, _, rfl⟩ := hc
  simp only [List.length_map, List.length_range]

/-- Witness for the amended C2 at `tinyBuf`, range `[0, 0.5)`. -/
theorem extract_success_shape_witness :
    ∃ nb, extractBuffer tinyBuf 0 (1 / 2) = .ok nb
      ∧ nb.length = (⌊(1 / 2 : ℚ) * tinyBuf.sampleRate⌋ - ⌊(0 : ℚ) * tinyBuf.sampleRate⌋).toNat
      ∧ nb.sampleRate = tinyBuf.sampleRate
      ∧ nb.numberOfChannels = tinyBuf.numberOfChannels
      ∧ nb.channels.length = nb.numberOfChannels
      ∧ ∀ c ∈ nb.channels, c.length = nb.length :=
  extract_success_shape tinyBuf 0 (1 / 2)
    (by show (0 : ℤ) < ⌊(1 / 2 : ℚ) * ((10 : ℕ) : ℚ)⌋ - ⌊(0 : ℚ) * ((10 : ℕ) : ℚ)⌋; norm_num)

/-- C3: `extract` fails (with the invalid-range error and nothing else)
exactly when the computed frame count is ≤ 0; in particular it always
fails when `endTime ≤ startTime`, and a success forces a positive frame
count. -/
theorem extract_error_iff :
    ∀ (b : AudioBuffer) (s e : ℚ),
      (extractBuffer b s e = .error "Invalid time range" ↔
        ⌊e * b.sampleRate⌋ - ⌊s * b.sampleRate⌋ ≤ 0)
      ∧ (e ≤ s → extractBuffer b s e = .error "Invalid time range")
      ∧ (∀ msg, extractBuffer b s e = .error msg → msg = "Invalid time range")
      ∧ (∀ nb, extractBuffer b s e = .ok nb →
          0 < ⌊e * b.sampleRate⌋ - ⌊s * b.sampleRate⌋) := by
  intro b s e
  have hmono : e ≤ s → ⌊e * b.sampleRate⌋ - ⌊s * b.sampleRate⌋ ≤ 0 := by
    intro hle
    have : e * (b.sampleRate : ℚ) ≤ s * (b.sampleRate : ℚ) :=
      mul_le_mul_of_nonneg_right hle (by positivity)
    have := Int.floor_le_floor this
    omega
  rw [extractBuffer_eq]
  split_ifs with h
  · refine ⟨by simp [h], fun _ => rfl, ?_, ?_⟩
    · intro msg hmsg
      exact (Except.error.injEq _ _).mp hmsg.symm
    · intro nb hnb
      exact absurd hnb (by simp)
  · refine ⟨by simp; omega, ?_, ?_, fun _ _ => by omega⟩
    · intro hle
      exact absurd (hmono hle) h
    · intro msg hmsg
      exact absurd hmsg (by simp)

/-- Witness for C3 at a range with `endTime ≤ startTime`. -/
theorem extract_error_iff_witness :
    extractBuffer tinyBuf (1 / 2) (1 / 4) = .error "Invalid time range" :=
  (extract_error_iff tinyBuf (1 / 2) (1 / 4)).2.1 (by norm_num)

/-- C7: the time↔pixel maps are the linear maps the spec states, and they
are exact mutual inverses (hence certainly within one pixel's time
resolution) whenever the duration and the pixel width are nonzero. -/
theorem pixel_time_roundtrip :
    ∀ (duration width t x : ℚ), duration ≠ 0 → width ≠ 0 → 0 ≤ t → t ≤ duration →
      timeToPixel duration width t = t / duration * width
      ∧ pixelToTime duration width x = x / width * duration
      ∧ pixelToTime duration width (timeToPixel duration width t) = t
      ∧ timeToPixel duration width (pixelToTime duration width x) = x := by
  intro duration width t x hd hw _ _
  refine ⟨rfl, rfl, ?_, ?_⟩
  · unfold timeToPixel pixelToTime
    field_simp
    ring
  · unfold timeToPixel pixelToTime
    field_simp
    ring

/-- Witness for C7: a 2-second waveform rendered 100 pixels wide,
clicking back the pixel of `t = 1`. -/
theorem pixel_time_roundtrip_witness :
    timeToPixel 2 100 1 = 1 / 2 * 100
    ∧ pixelToTime 2 100 5 = 5 / 100 * 2
    ∧ pixelToTime 2 100 (timeToPixel 2 100 1) = 1
    ∧ timeToPixel 2 100 (pixelToTime 2 100 5) = 5 :=
  pixel_time_roundtrip 2 100 1 5 (by norm_num) (by norm_num) (by norm_num) (by norm_num)

/-- C10: extraction places no upper bound on `startTime`.  If `startTime`
is at or beyond the source's duration and the computed frame count is
positive, the call succeeds with the requested frame count and every
sample of every output channel is zero. -/
theorem extract_beyond_end_silence :
    ∀ (b : AudioBuffer) (s e : ℚ), b.WF → 0 < b.sampleRate →
      (b.length : ℚ) / b.sampleRate ≤ s → s < e →
      0 < ⌊e * b.sampleRate⌋ - ⌊s * b.sampleRate⌋ →
      ∃ nb, extractBuffer b s e = .ok nb
        ∧ nb.length = (⌊e * b.sampleRate⌋ - ⌊s * b.sampleRate⌋).toNat
        ∧ nb.sampleRate = b.sampleRate
        ∧ nb.numberOfChannels = b.numberOfChannels
        ∧ ∀ c ∈ nb.channels, ∀ q ∈ c, q = 0 := by
  intro b s e hwf hsr hdur _ hfc
  refine ⟨_, extractBuffer_ok b s e hfc, rfl, rfl, rfl, ?_⟩
  have hsrq : (0 : ℚ) < (b.sampleRate : ℚ) := by exact_mod_cast hsr
  have h1 : (b.length : ℚ) ≤ s * (b.sampleRate : ℚ) := by
    have := (div_le_iff₀ hsrq).mp hdur
    linarith
  have hlen : (b.length : ℤ) ≤ ⌊s * (b.sampleRate : ℚ)⌋ := by
    apply Int.le_floor.mpr
    push_cast
    exact h1
  intro c hc
  simp only [List.mem_map, List.mem_range] at hc
  obtain ⟨i, hi, rfl⟩ := hc
  intro q hq
  simp only [List.mem_map, List.mem_range] at hq
  obtain ⟨j, hj, rfl⟩ := hq
  have hch := channelData_length_le b hwf i
  rw [if_neg (show ¬(⌊s * (b.sampleRate : ℚ)⌋ + (j : ℤ) <
    ((b.channelData i).length : ℤ)) by omega)]

/-- Witness for C10: `tinyBuf` holds 0.2 s of audio; extracting `[1, 2)`
succeeds and is pure silence. -/
theorem extract_beyond_end_silence_witness :
    ∃ nb, extractBuffer tinyBuf 1 2 = .ok nb
      ∧ nb.length = (⌊(2 : ℚ) * tinyBuf.sampleRate⌋ - ⌊(1 : ℚ) * tinyBuf.sampleRate⌋).toNat
      ∧ nb.sampleRate = tinyBuf.sampleRate
      ∧ nb.numberOfChannels = tinyBuf.numberOfChannels
      ∧ ∀ c ∈ nb.channels, ∀ q ∈ c, q = 0 :=
  extract_beyond_end_silence tinyBuf 1 2
    (by constructor <;> simp [tinyBuf])
    (by norm_num [tinyBuf])
    (by show ((2 : ℕ) : ℚ) / ((10 : ℕ) : ℚ) ≤ 1; norm_num)
    (by norm_num)
    (by show (0 : ℤ) < ⌊(2 : ℚ) * ((10 : ℕ) : ℚ)⌋ - ⌊(1 : ℚ) * ((10 : ℕ) : ℚ)⌋; norm_num)

/-- C4: when the computed end sample index exceeds the source's frame
count, extraction still succeeds; each output frame `j` of channel `i`
holds the source sample `startSample + j` when that index exists in the
source, and zero (silence) otherwise. -/
theorem extract_tail_zero_fill :
    ∀ (b : AudioBuffer) (s e : ℚ), b.WF → 0 ≤ s →
      (b.length : ℤ) < ⌊e * b.sampleRate⌋ →
      0 < ⌊e * b.sampleRate⌋ - ⌊s * b.sampleRate⌋ →
      ∃ nb, extractBuffer b s e = .ok nb
        ∧ ∀ i, i < b.numberOfChannels →
            ∀ j, j < (⌊e * b.sampleRate⌋ - ⌊s * b.sampleRate⌋).toNat →
              (nb.channelData i).getD j 0 =
                if ⌊s * b.sampleRate⌋ + (j : ℤ) < (b.length : ℤ) then
                  (b.channelData i).getD (⌊s * b.sampleRate⌋ + (j : ℤ)).toNat 0
                else 0 := by
  intro b s e hwf hs _ hfc
  refine ⟨_, extractBuffer_ok b s e hfc, ?_⟩
  intro i hi j hj
  have hstart : (0 : ℤ) ≤ ⌊s * (b.sampleRate : ℚ)⌋ :=
    Int.floor_nonneg.mpr (mul_nonneg hs (Nat.cast_nonneg _))
  have h1 : (AudioBuffer.channelData
      { sampleRate := b.sampleRate
        numberOfChannels := b.numberOfChannels
        length := (⌊e * b.sampleRate⌋ - ⌊s * b.sampleRate⌋).toNat
        channels :=
          (List.range b.numberOfChannels).map fun i =>
            (List.range (⌊e * b.sampleRate⌋ - ⌊s * b.sampleRate⌋).toNat).map
              fun (j : ℕ) =>
                if ⌊s * b.sampleRate⌋ + (j : ℤ) < ((b.channelData i).length : ℤ) then
                  jsReadQ (b.channelData i) (⌊s * b.sampleRate⌋ + (j : ℤ))
                else 0 } i) =
      (List.range (⌊e * b.sampleRate⌋ - ⌊s * b.sampleRate⌋).toNat).map
        fun (j : ℕ) =>
          if ⌊s * b.sampleRate⌋ + (j : ℤ) < ((b.channelData i).length : ℤ) then
            jsReadQ (b.channelData i) (⌊s * b.sampleRate⌋ + (j : ℤ))
          else 0 := by
    unfold AudioBuffer.channelData
    exact getD_map_range _ _ _ i hi
  rw [h1, getD_map_range _ _ _ j hj, channelData_length_eq b hwf i hi]
  unfold jsReadQ
  rw [if_pos (show (0 : ℤ) ≤ ⌊s * (b.sampleRate : ℚ)⌋ + (j : ℤ) by omega)]

/-- Witness for C4: extracting `[0, 1)` from the 0.2-second `tinyBuf`. -/
theorem extract_tail_zero_fill_witness :
    ∃ nb, extractBuffer tinyBuf 0 1 = .ok nb
      ∧ ∀ i, i < tinyBuf.numberOfChannels →
          ∀ j, j < (⌊(1 : ℚ) * tinyBuf.sampleRate⌋ - ⌊(0 : ℚ) * tinyBuf.sampleRate⌋).toNat →
            (nb.channelData i).getD j 0 =
              if ⌊(0 : ℚ) * tinyBuf.sampleRate⌋ + (j : ℤ) < (tinyBuf.length : ℤ) then
                (tinyBuf.channelData i).getD (⌊(0 : ℚ) * tinyBuf.sampleRate⌋ + (j : ℤ)).toNat 0
              else 0 :=
  extract_tail_zero_fill tinyBuf 0 1
    (by constructor <;> simp [tinyBuf])
    (by norm_num)
    (by show ((2 : ℕ) : ℤ) < ⌊(1 : ℚ) * ((10 : ℕ) : ℚ)⌋; norm_num)
    (by show (0 : ℤ) < ⌊(1 : ℚ) * ((10 : ℕ) : ℚ)⌋ - ⌊(0 : ℚ) * ((10 : ℕ) : ℚ)⌋; norm_num)

/- ---------------------------------------------------------------
   Downsampling helpers (claim C6).
   --------------------------------------------------------------- -/

/-- One step of the waveform min/max accumulation (lines 167-169). -/
def mmBody (mm : ℚ × ℚ) (d : ℚ) : ℚ × ℚ :=
  (if d < mm.1 then d else mm.1, if d > mm.2 then d else mm.2)

lemma mmBody_eq_min_max (mm : ℚ × ℚ) (d : ℚ) :
    mmBody mm d = (min mm.1 d, max mm.2 d) := by
  unfold mmBody
  rw [min_def, max_def]
  refine Prod.ext ?_ ?_ <;> simp only [] <;> split_ifs <;> first | rfl | linarith

lemma fold_skip_eq (data : List ℚ) :
    ∀ (n base : ℕ) (mm : ℚ × ℚ),
      (List.range n).foldl
        (fun mm j =>
          match data[base + j]? with
          | none => mm
          | some d => mmBody mm d) mm
      = ((data.drop base).take n).foldl mmBody mm := by
  intro n
  induction n with
  | zero => intro base mm; rfl
  | succ n ih =>
    intro base mm
    rw [List.range_succ_eq_map, List.foldl_cons, List.foldl_map]
    have hfun : (fun (mm : ℚ × ℚ) (j : ℕ) =>
        match data[base + Nat.succ j]? with
        | none => mm
        | some d => mmBody mm d)
        = fun (mm : ℚ × ℚ) (j : ℕ) =>
            match data[(base + 1) + j]? with
            | none => mm
            | some d => mmBody mm d := by
      funext mm j
      have h : base + Nat.succ j = (base + 1) + j := by omega
      rw [h]
    rw [hfun, ih (base + 1)]
    rcases h : data[base]? with _ | d
    · have hlen : data.length ≤ base := List.getElem?_eq_none_iff.mp h
      have h1 : data.drop base = [] := List.drop_eq_nil_of_le hlen
      have h2 : data.drop (base + 1) = [] := List.drop_eq_nil_of_le (by omega)
      simp [h1, h2, h]
    · have hlt : base < data.length := by
        rcases List.getElem?_eq_some_iff.mp h with ⟨hh, _⟩
        exact hh
      have h1 : data.drop base = data[base] :: data.drop (base + 1) :=
        List.drop_eq_getElem_cons hlt
      have hd : data[base] = d := by
        rcases List.getElem?_eq_some_iff.mp h with ⟨_, hh⟩
        exact hh
      rw [h1, hd, List.take_succ_cons, List.foldl_cons]
      simp [h]

lemma minMaxStep_eq (data : List ℚ) (base step : ℕ) :
    minMaxStep data base step
      = ((data.drop base).take step).foldl mmBody (1, -1) := by
  show (List.range step).foldl
      (fun mm j =>
        match data[base + j]? with
        | none => mm
        | some d => mmBody mm d) (1, -1) = _
  exact fold_skip_eq data step base (1, -1)

lemma minMaxFold_spec (l : List ℚ) :
    ∀ mm : ℚ × ℚ,
      (l.foldl mmBody mm).1 ≤ mm.1
      ∧ mm.2 ≤ (l.foldl mmBody mm).2
      ∧ (∀ q ∈ l, (l.foldl mmBody mm).1 ≤ q ∧ q ≤ (l.foldl mmBody mm).2)
      ∧ ((l.foldl mmBody mm).1 = mm.1 ∨ (l.foldl mmBody mm).1 ∈ l)
      ∧ ((l.foldl mmBody mm).2 = mm.2 ∨ (l.foldl mmBody mm).2 ∈ l) := by
  induction l with
  | nil => intro mm; simp
  | cons d t ih =>
    intro mm
    rw [List.foldl_cons]
    obtain ⟨h1, h2, h3, h4, h5⟩ := ih (mmBody mm d)
    have hfst : (mmBody mm d).1 = min mm.1 d := by rw [mmBody_eq_min_max]
    have hsnd : (mmBody mm d).2 = max mm.2 d := by rw [mmBody_eq_min_max]
    refine ⟨?_, ?_, ?_, ?_, ?_⟩
    · exact h1.trans (by rw [hfst]; exact min_le_left _ _)
    · exact (show mm.2 ≤ (mmBody mm d).2 by rw [hsnd]; exact le_max_left _ _).trans h2
    · intro q hq
      rcases List.mem_cons.mp hq with rfl | hq'
      · refine ⟨h1.trans (by rw [hfst]; exact min_le_right _ _), ?_⟩
        exact (show q ≤ (mmBody mm q).2 by rw [hsnd]; exact le_max_right _ _).trans h2
      · exact h3 q hq'
    · rcases h4 with h | h
      · rw [h, hfst]
        rcases min_choice mm.1 d with hm | hm
        · exact Or.inl hm
        · exact Or.inr (by rw [hm]; exact List.mem_cons_self _ _)
      · exact Or.inr (List.mem_cons_of_mem _ h)
    · rcases h5 with h | h
      · rw [h, hsnd]
        rcases max_choice mm.2 d with hm | hm
        · exact Or.inl hm
        · exact Or.inr (by rw [hm]; exact List.mem_cons_self _ _)
      · exact Or.inr (List.mem_cons_of_mem _ h)

lemma minMaxFold_mem_of_bounds (l : List ℚ) (hne : l ≠ [])
    (hlow : ∀ q ∈ l, -1 ≤ q) (hhigh : ∀ q ∈ l, q ≤ 1) :
    (l.foldl mmBody (1, -1)).1 ∈ l ∧ (l.foldl mmBody (1, -1)).2 ∈ l
    ∧ ∀ q ∈ l, (l.foldl mmBody (1, -1)).1 ≤ q ∧ q ≤ (l.foldl mmBody (1, -1)).2 := by
  obtain ⟨h1, h2, h3, h4, h5⟩ := minMaxFold_spec l (1, -1)
  obtain ⟨q0, hq0⟩ := List.exists_mem_of_ne_nil l hne
  refine ⟨?_, ?_, h3⟩
  · rcases h4 with h | h
    · have hf1 : (l.foldl mmBody (1, -1)).1 = 1 := h
      have hle := (h3 q0 hq0).1
      have h1q : (1 : ℚ) ≤ q0 := by rw [← hf1]; exact hle
      have heq : q0 = 1 := le_antisymm (hhigh q0 hq0) h1q
      have hfq : (l.foldl mmBody (1, -1)).1 = q0 := by rw [hf1, heq]
      rw [hfq]
      exact hq0
    · exact h
  · rcases h5 with h | h
    · have hf2 : (l.foldl mmBody (1, -1)).2 = -1 := h
      have hle := (h3 q0 hq0).2
      have h1q : q0 ≤ (-1 : ℚ) := by rw [← hf2]; exact hle
      have heq : q0 = -1 := le_antisymm h1q (hlow q0 hq0)
      have hfq : (l.foldl mmBody (1, -1)).2 = q0 := by rw [hf2, heq]
      rw [hfq]
      exact hq0
    · exact h

lemma downsample_eq (b : AudioBuffer) (width : ℕ) :
    downsample b width
      = (List.range width).map fun i =>
          minMaxStep (b.channelData 0) (i * downsampleStep b width)
            (downsampleStep b width) := rfl

/-- C6: `downsample` returns exactly `pixelWidth` pairs, each computed over
the group of `ceil(frameCount / pixelWidth)` consecutive first-channel
samples starting at `i·step`; an empty group yields the sentinel
`(1, -1)`; a non-empty group of in-range samples yields its true minimum
and maximum (both attained in the group); in an all-zero buffer every
non-empty group yields `(0, 0)`. -/
theorem downsample_minmax :
    ∀ (b : AudioBuffer) (width : ℕ), 0 < width →
      (downsample b width).length = width
      ∧ ∀ i, i < width →
          (downsample b width).getD i (0, 0) =
            minMaxStep (b.channelData 0) (i * downsampleStep b width)
              (downsampleStep b width)
          ∧ (((b.channelData 0).drop (i * downsampleStep b width)).take
                (downsampleStep b width) = [] →
              (downsample b width).getD i (0, 0) = (1, -1))
          ∧ (((b.channelData 0).drop (i * downsampleStep b width)).take
                (downsampleStep b width) ≠ [] →
              (∀ q ∈ b.channelData 0, -1 ≤ q ∧ q ≤ 1) →
              ((downsample b width).getD i (0, 0)).1 ∈
                ((b.channelData 0).drop (i * downsampleStep b width)).take
                  (downsampleStep b width)
              ∧ ((downsample b width).getD i (0, 0)).2 ∈
                  ((b.channelData 0).drop (i * downsampleStep b width)).take
                    (downsampleStep b width)
              ∧ ∀ q ∈ ((b.channelData 0).drop (i * downsampleStep b width)).take
                    (downsampleStep b width),
                  ((downsample b width).getD i (0, 0)).1 ≤ q
                  ∧ q ≤ ((downsample b width).getD i (0, 0)).2)
          ∧ ((∀ q ∈ b.channelData 0, q = 0) →
              ((b.channelData 0).drop (i * downsampleStep b width)).take
                (downsampleStep b width) ≠ [] →
              (downsample b width).getD i (0, 0) = (0, 0)) := by
  intro b width _
  refine ⟨by rw [downsample_eq]; simp, ?_⟩
  intro i hi
  have hmem_data : ∀ q ∈ ((b.channelData 0).drop (i * downsampleStep b width)).take
      (downsampleStep b width), q ∈ b.channelData 0 :=
    fun q hq => List.mem_of_mem_drop (List.mem_of_mem_take hq)
  have hpair : (downsample b width).getD i (0, 0) =
      minMaxStep (b.channelData 0) (i * downsampleStep b width)
        (downsampleStep b width) := by
    rw [downsample_eq]
    exact getD_map_range _ _ _ i hi
  have hgrp := minMaxStep_eq (b.channelData 0) (i * downsampleStep b width)
    (downsampleStep b width)
  refine ⟨hpair, ?_, ?_, ?_⟩
  · intro hempty
    rw [hpair, hgrp, hempty]
    rfl
  · intro hne hbound
    rw [hpair, hgrp]
    exact minMaxFold_mem_of_bounds _ hne
      (fun q hq => (hbound q (hmem_data q hq)).1)
      (fun q hq => (hbound q (hmem_data q hq)).2)
  · intro hzero hne
    have hbound : ∀ q ∈ b.channelData 0, -1 ≤ q ∧ q ≤ 1 := by
      intro q hq
      rw [hzero q hq]
      norm_num
    obtain ⟨hm1, hm2, _⟩ := minMaxFold_mem_of_bounds
      (((b.channelData 0).drop (i * downsampleStep b width)).take
        (downsampleStep b width)) hne
      (fun q hq => (hbound q (hmem_data q hq)).1)
      (fun q hq => (hbound q (hmem_data q hq)).2)
    rw [hpair, hgrp]
    have z1 := hzero _ (hmem_data _ hm1)
    have z2 := hzero _ (hmem_data _ hm2)
    exact Prod.ext z1 z2

/-- Witness for C6 at `tinyBuf` with width 3: step is 1, group 2 is empty
and yields the inverted sentinel. -/
theorem downsample_minmax_witness :
    (downsample tinyBuf 3).length = 3
    ∧ (downsample tinyBuf 3).getD 2 (0, 0) = (1, -1) := by
  have h := downsample_minmax tinyBuf 3 (by norm_num)
  have hstep : downsampleStep tinyBuf 3 = 1 := by
    unfold downsampleStep
    have hlen : (tinyBuf.channelData 0).length = 2 := rfl
    rw [hlen]
    have hc : ⌈((2 : ℕ) : ℚ) / ((3 : ℕ) : ℚ)⌉ = 1 := by
      rw [Int.ceil_eq_iff]
      push_cast
      norm_num
    rw [hc]
    rfl
  refine ⟨h.1, ?_⟩
  apply (h.2 2 (by norm_num)).2.1
  rw [hstep]
  rfl

/- ---------------------------------------------------------------
   Encoder byte-layout helpers (claims C5 and C1).
   --------------------------------------------------------------- -/

lemma flatMap_length_const {α β : Type} (f : α → List β) (k : ℕ)
    (h : ∀ a, (f a).length = k) (l : List α) :
    (l.flatMap f).length = l.length * k := by
  rw [List.length_flatMap]
  have hrep : List.map (List.length ∘ f) l = List.replicate l.length k := by
    rw [List.eq_replicate_iff]
    refine ⟨by simp, ?_⟩
    intro x hx
    rcases List.mem_map.mp hx with ⟨a, _, rfl⟩
    exact h a
  rw [hrep, List.sum_replicate, smul_eq_mul]

lemma frameBytes_length (b : AudioBuffer) (pos : ℕ) :
    (frameBytes b pos).length = b.numberOfChannels * 2 := by
  unfold frameBytes
  rw [flatMap_length_const
      (fun i => i16le (convertSample ((b.channelData i).getD pos 0))) 2
      (fun _ => rfl), List.length_range]

lemma bufferToWav_length (b : AudioBuffer) :
    (bufferToWav b).length = 44 + b.length * b.numberOfChannels * 2 := by
  unfold bufferToWav
  rw [List.length_append,
    flatMap_length_const _ (b.numberOfChannels * 2) (frameBytes_length b),
    List.length_range, show (wavHeader b).length = 44 from rfl]
  ring

lemma flatMap_range_drop {β : Type} (f : ℕ → List β) (k : ℕ)
    (h : ∀ i, (f i).length = k) (n j : ℕ) (hj : j ≤ n) :
    ((List.range n).flatMap f).drop (j * k) = (List.range' j (n - j)).flatMap f := by
  have happ := List.range'_append 0 j (n - j) 1
  rw [show 0 + 1 * j = j from by omega, show n - j + j = n from by omega] at happ
  have hsplit : List.range n = List.range' 0 j ++ List.range' j (n - j) := by
    rw [List.range_eq_range']
    exact happ.symm
  rw [hsplit, List.flatMap_append]
  have hlen : ((List.range' 0 j).flatMap f).length = j * k := by
    rw [flatMap_length_const f k h, List.length_range']
  rw [← hlen, List.drop_left]

lemma bufferToWav_sample_bytes (b : AudioBuffer) (pos i : ℕ)
    (hpos : pos < b.length) (hi : i < b.numberOfChannels) :
    ((bufferToWav b).drop (44 + 2 * (pos * b.numberOfChannels + i))).take 2
      = i16le (convertSample ((b.channelData i).getD pos 0)) := by
  unfold bufferToWav
  rw [show 44 + 2 * (pos * b.numberOfChannels + i)
      = (wavHeader b).length + (pos * (b.numberOfChannels * 2) + i * 2) from by
    rw [show (wavHeader b).length = 44 from rfl]; ring]
  rw [List.drop_append, ← List.drop_drop,
    flatMap_range_drop _ _ (frameBytes_length b) _ pos (le_of_lt hpos),
    show b.length - pos = (b.length - pos - 1) + 1 from by omega,
    List.range'_succ, List.flatMap_cons,
    List.drop_append_of_le_length (by rw [frameBytes_length]; omega)]
  unfold frameBytes
  rw [flatMap_range_drop
      (fun i2 => i16le (convertSample ((b.channelData i2).getD pos 0))) 2
      (fun _ => rfl) _ i (le_of_lt hi),
    show b.numberOfChannels - i = (b.numberOfChannels - i - 1) + 1 from by omega,
    List.range'_succ, List.flatMap_cons, List.append_assoc,
    List.take_append_of_le_length (by rw [show (i16le (convertSample
      ((b.channelData i).getD pos 0))).length = 2 from rfl]),
    List.take_of_length_le (by rw [show (i16le (convertSample
      ((b.channelData i).getD pos 0))).length = 2 from rfl])]

lemma clamp_zero : clamp 0 = 0 := by
  unfold clamp
  rw [min_eq_right (by norm_num : (0 : ℚ) ≤ 1), max_eq_right (by norm_num : (-1 : ℚ) ≤ 0)]

lemma convertSample_zero : convertSample 0 = 0 := by
  unfold convertSample
  rw [clamp_zero, if_neg (by norm_num), zero_mul]
  unfold toInt32 truncInt
  rw [if_neg (by norm_num), Int.floor_zero]
  decide

lemma frameBytes_zeroBuf (pos : ℕ) : frameBytes zeroBuf pos = [0, 0] := by
  have h : (zeroBuf.channelData 0).getD pos 0 = 0 := by
    show (List.replicate 10 (0 : ℚ)).getD pos 0 = 0
    rw [List.getD_eq_getElem?_getD, List.getElem?_replicate]
    split_ifs <;> rfl
  show (List.range 1).flatMap
    (fun i => i16le (convertSample ((zeroBuf.channelData i).getD pos 0))) = [0, 0]
  have hr : List.range 1 = [0] := by simp [List.range_succ]
  rw [hr, List.flatMap_cons, h, convertSample_zero]
  rfl

lemma zeroBuf_sample_area : (bufferToWav zeroBuf).drop 44 = List.replicate 20 0 := by
  unfold bufferToWav
  rw [show (44 : ℕ) = (wavHeader zeroBuf).length from rfl, List.drop_left]
  rw [List.eq_replicate_iff]
  constructor
  · rw [flatMap_length_const (frameBytes zeroBuf) 2
      (fun pos => by rw [frameBytes_zeroBuf]; rfl), List.length_range]
    decide
  · intro x hx
    rcases List.mem_flatMap.mp hx with ⟨pos, _, hmem⟩
    rw [frameBytes_zeroBuf] at hmem
    rcases List.mem_cons.mp hmem with rfl | hmem'
    · rfl
    · rcases List.mem_cons.mp hmem' with rfl | hmem''
      · rfl
      · exact absurd hmem'' (List.not_mem_nil x)

set_option maxHeartbeats 2000000 in
/-- C5: `encode` produces `44 + frameCount·channelCount·2` bytes: a 44-byte
header with all multi-byte fields little-endian — container tag "RIFF",
total size = length − 8, "WAVE", "fmt ", chunk size 16, PCM tag 1,
channel count, sample rate, byte rate = sampleRate·channelCount·2, block
align = channelCount·2, bit depth 16, "data", data length = length − 44 —
followed by the interleaved 16-bit little-endian samples, one full frame
(all channels) at a time in ascending frame order.  For the 1-channel
8000 Hz 10-frame zero buffer the result is 64 bytes with byte 22 = 1,
bytes 24-27 = 8000 little-endian and all sample bytes zero; a 22050-frame
mono buffer encodes to 44144 bytes. -/
theorem encode_layout :
    ∀ b : AudioBuffer,
      (bufferToWav b).length = 44 + b.length * b.numberOfChannels * 2
      ∧ (bufferToWav b).take 4 = u32le 0x46464952
      ∧ ((bufferToWav b).drop 4).take 4
          = u32le (44 + b.length * b.numberOfChannels * 2 - 8)
      ∧ ((bufferToWav b).drop 8).take 4 = u32le 0x45564157
      ∧ ((bufferToWav b).drop 12).take 4 = u32le 0x20746d66
      ∧ ((bufferToWav b).drop 16).take 4 = u32le 16
      ∧ ((bufferToWav b).drop 20).take 2 = u16le 1
      ∧ ((bufferToWav b).drop 22).take 2 = u16le b.numberOfChannels
      ∧ ((bufferToWav b).drop 24).take 4 = u32le b.sampleRate
      ∧ ((bufferToWav b).drop 28).take 4
          = u32le (b.sampleRate * b.numberOfChannels * 2)
      ∧ ((bufferToWav b).drop 32).take 2 = u16le (b.numberOfChannels * 2)
      ∧ ((bufferToWav b).drop 34).take 2 = u16le 16
      ∧ ((bufferToWav b).drop 36).take 4 = u32le 0x61746164
      ∧ ((bufferToWav b).drop 40).take 4
          = u32le (44 + b.length * b.numberOfChannels * 2 - 44)
      ∧ (∀ pos i, pos < b.length → i < b.numberOfChannels →
          ((bufferToWav b).drop (44 + 2 * (pos * b.numberOfChannels + i))).take 2
            = i16le (convertSample ((b.channelData i).getD pos 0)))
      ∧ (bufferToWav zeroBuf).length = 64
      ∧ (bufferToWav zeroBuf).getD 22 0 = 1
      ∧ ((bufferToWav zeroBuf).drop 24).take 4 = [64, 31, 0, 0]
      ∧ (bufferToWav zeroBuf).drop 44 = List.replicate 20 0
      ∧ (bufferToWav monoBuf22050).length = 44144 := by
  intro b
  refine ⟨bufferToWav_length b, rfl, ?_, rfl, rfl, rfl, rfl, rfl, rfl, ?_, rfl, rfl,
    rfl, ?_, bufferToWav_sample_bytes b, ?_, ?_, ?_, zeroBuf_sample_area, ?_⟩
  · rw [show ((bufferToWav b).drop 4).take 4
        = u32le (b.length * b.numberOfChannels * 2 + 44 - 8) from rfl]
    congr 1
    omega
  · rw [show ((bufferToWav b).drop 28).take 4
        = u32le (b.sampleRate * 2 * b.numberOfChannels) from rfl]
    congr 1
    ring
  · rw [show ((bufferToWav b).drop 40).take 4
        = u32le (b.length * b.numberOfChannels * 2 + 44 - 40 - 4) from rfl]
    congr 1
    omega
  · rw [bufferToWav_length]
    rfl
  · rw [show (bufferToWav zeroBuf).getD 22 0
      = ((bufferToWav zeroBuf).drop 22).headI from rfl]
    rw [show ((bufferToWav zeroBuf).drop 22).headI = 1 from rfl]
  · decide
  · rw [bufferToWav_length]
    rfl

/-- Witness for C5's sample-layout clause at `zeroBuf`, frame 0, channel 0. -/
theorem encode_layout_witness :
    ((bufferToWav zeroBuf).drop
        (44 + 2 * (0 * zeroBuf.numberOfChannels + 0))).take 2
      = i16le (convertSample ((zeroBuf.channelData 0).getD 0 0)) :=
  (encode_layout zeroBuf).2.2.2.2.2.2.2.2.2.2.2.2.2.2.1 0 0
    (by decide) (by decide)

/- ---------------------------------------------------------------
   Sample conversion (claim C1).
   --------------------------------------------------------------- -/

lemma truncInt_bounds (q : ℚ) (m : ℤ) (h1 : -(m : ℚ) ≤ q) (h2 : q ≤ (m : ℚ)) :
    -m ≤ truncInt q ∧ truncInt q ≤ m := by
  unfold truncInt
  split_ifs with h
  · constructor
    · have hq := Int.le_ceil q
      have : -(m : ℚ) ≤ ((⌈q⌉ : ℤ) : ℚ) := h1.trans hq
      exact_mod_cast this
    · exact Int.ceil_le.mpr h2
  · constructor
    · apply Int.le_floor.mpr
      push_cast
      exact h1
    · have hq := Int.floor_le q
      have : ((⌊q⌋ : ℤ) : ℚ) ≤ (m : ℚ) := hq.trans h2
      exact_mod_cast this

lemma toInt32_eq_truncInt {q : ℚ} (h1 : -(32768 : ℚ) ≤ q) (h2 : q ≤ (32768 : ℚ)) :
    toInt32 q = truncInt q := by
  have hb := truncInt_bounds q 32768
    (by push_cast; exact h1) (by push_cast; exact h2)
  unfold toInt32
  omega

lemma clamp_bounds (s : ℚ) : -1 ≤ clamp s ∧ clamp s ≤ 1 := by
  unfold clamp
  exact ⟨le_max_left _ _, max_le (by norm_num) (min_le_left _ _)⟩

lemma convertSample_characterization (s : ℚ) :
    convertSample s =
      if clamp s < -(1 / 2) then truncInt (clamp s * 32768)
      else truncInt (clamp s * 32767) := by
  obtain ⟨hl, hu⟩ := clamp_bounds s
  unfold convertSample
  have hcond : (1 / 2 + clamp s < 0) ↔ clamp s < -(1 / 2) := by
    constructor <;> intro <;> linarith
  by_cases h : clamp s < -(1 / 2)
  · rw [if_pos (hcond.mpr h), if_pos h]
    apply toInt32_eq_truncInt <;> linarith
  · rw [if_neg (fun hc => h (hcond.mp hc)), if_neg h]
    apply toInt32_eq_truncInt <;> linarith

/-- C1 as stated is false on the code.  At the clamped sample `-1/4` the
code picks the 32767 scale (the parsed condition `(0.5 + s) < 0` is
false) and `|0` truncates toward zero, writing `-8191` (bytes `01 E0`),
while the spec's mapping `⌊s·32768⌋` for `s < 0` gives `-8192`
(bytes `00 E0`). -/
theorem sample_conversion_counterexample :
    convertSample (-(1 / 4)) = -8191
    ∧ specConvertSample (-(1 / 4)) = -8192
    ∧ (bufferToWav quarterBuf).drop 44 = [1, 224]
    ∧ i16le (specConvertSample (-(1 / 4))) = [0, 224] := by
  have hclamp : clamp (-(1 / 4)) = -(1 / 4) := by
    unfold clamp
    rw [min_eq_right (by norm_num), max_eq_right (by norm_num)]
  have hconv : convertSample (-(1 / 4)) = -8191 := by
    rw [convertSample_characterization, hclamp, if_neg (by norm_num)]
    unfold truncInt
    rw [if_pos (by norm_num), Int.ceil_eq_iff]
    push_cast
    norm_num
  have hspec : specConvertSample (-(1 / 4)) = -8192 := by
    unfold specConvertSample
    rw [hclamp, if_pos (by norm_num),
      show (-(1 / 4) * 32768 : ℚ) = ((-8192 : ℤ) : ℚ) from by push_cast; norm_num,
      Int.floor_intCast]
  refine ⟨hconv, hspec, ?_, by rw [hspec]; decide⟩
  unfold bufferToWav
  rw [show (44 : ℕ) = (wavHeader quarterBuf).length from rfl, List.drop_left]
  have hr : List.range 1 = [0] := by simp [List.range_succ]
  show (List.range 1).flatMap (frameBytes quarterBuf) = [1, 224]
  rw [hr, List.flatMap_cons]
  show frameBytes quarterBuf 0 ++ [] = [1, 224]
  rw [List.append_nil]
  show (List.range 1).flatMap
    (fun i => i16le (convertSample ((quarterBuf.channelData i).getD 0 0))) = [1, 224]
  rw [hr, List.flatMap_cons]
  show i16le (convertSample ((quarterBuf.channelData 0).getD 0 0)) ++ [] = [1, 224]
  rw [List.append_nil, show (quarterBuf.channelData 0).getD 0 0 = -(1 / 4) from rfl,
    hconv]
  decide

/-- C1, amended: each sample is clamped to `[-1, 1]`, but the scale factor
is 32768 exactly when the clamped sample is below −0.5 (the code's
`(0.5 + sample) < 0`, not the spec's `sample < 0`), 32767 otherwise, and
the scaled value is truncated toward zero by `|0` (not floored); that
value, written 16-bit little-endian, is what the encoder emits for every
frame and channel. -/
theorem sample_conversion_amended :
    (∀ s : ℚ,
      convertSample s =
        if clamp s < -(1 / 2) then truncInt (clamp s * 32768)
        else truncInt (clamp s * 32767))
    ∧ (∀ s : ℚ, -1 ≤ clamp s ∧ clamp s ≤ 1)
    ∧ ∀ (b : AudioBuffer) (pos i : ℕ), pos < b.length → i < b.numberOfChannels →
        ((bufferToWav b).drop (44 + 2 * (pos * b.numberOfChannels + i))).take 2
          = i16le (convertSample ((b.channelData i).getD pos 0)) :=
  ⟨convertSample_characterization, clamp_bounds,
    fun b pos i h1 h2 => bufferToWav_sample_bytes b pos i h1 h2⟩

/-- Witness for the amended C1 at `quarterBuf`, frame 0, channel 0. -/
theorem sample_conversion_amended_witness :
    ((bufferToWav quarterBuf).drop
        (44 + 2 * (0 * quarterBuf.numberOfChannels + 0))).take 2
      = i16le (convertSample ((quarterBuf.channelData 0).getD 0 0)) :=
  sample_conversion_amended.2.2 quarterBuf 0 0 (by decide) (by decide)

/- ---------------------------------------------------------------
   Time formatting and the download filename (claim C9).
   --------------------------------------------------------------- -/

/-- C9: the download name is `clip_<formatTime start>-<formatTime end>.wav`,
where `formatTime s` renders `⌊s/60⌋`, then the seconds within the minute
(a value in `[0, 60)`), then the hundredths of the fractional second
(a value in `[0, 100)`), the last two zero-padded to two digits;
`5.3` seconds renders as `0:05.30`. -/
theorem format_filename_shape :
    ∀ s t : ℚ, 0 ≤ s →
      extractFilename s t
        = "clip_" ++ formatTime s ++ "-" ++ formatTime t ++ ".wav"
      ∧ formatTime s =
          toString ⌊s / 60⌋ ++ ":" ++ padStart (toString ⌊jsMod s 60⌋) 2 '0'
            ++ "." ++ padStart (toString ⌊jsMod s 1 * 100⌋) 2 '0'
      ∧ jsMod s 60 = s - 60 * (⌊s / 60⌋ : ℚ)
      ∧ 0 ≤ ⌊jsMod s 60⌋ ∧ ⌊jsMod s 60⌋ < 60
      ∧ ⌊jsMod s 1 * 100⌋ = ⌊s * 100⌋ - 100 * ⌊s⌋
      ∧ 0 ≤ ⌊jsMod s 1 * 100⌋ ∧ ⌊jsMod s 1 * 100⌋ < 100
      ∧ (∀ n : ℤ, 0 ≤ n → n < 100 → (padStart (toString n) 2 '0').length = 2)
      ∧ formatTime (53 / 10) = "0:05.30"
      ∧ extractFilename (53 / 10) 12 = "clip_0:05.30-0:12.00.wav" := by
  intro s t hs
  have htr : truncInt (s / 60) = ⌊s / 60⌋ := by
    unfold truncInt
    rw [if_neg (not_lt.mpr (div_nonneg hs (by norm_num)))]
  have hjs60 : jsMod s 60 = s - 60 * (⌊s / 60⌋ : ℚ) := by
    unfold jsMod
    rw [htr]
  have h0 : 0 ≤ s - (⌊s / 60⌋ : ℚ) * 60 :=
    Int.sub_floor_div_mul_nonneg s (by norm_num : (0 : ℚ) < 60)
  have h1 : s - (⌊s / 60⌋ : ℚ) * 60 < 60 :=
    Int.sub_floor_div_mul_lt s (by norm_num : (0 : ℚ) < 60)
  have htr1 : truncInt (s / 1) = ⌊s⌋ := by
    unfold truncInt
    rw [div_one, if_neg (not_lt.mpr hs)]
  have hjs1 : jsMod s 1 = s - (⌊s⌋ : ℚ) := by
    unfold jsMod
    rw [div_one] at htr1 ⊢
    rw [htr1, one_mul]
  have hf0 : 0 ≤ s - (⌊s⌋ : ℚ) := by linarith [Int.floor_le s]
  have hf1 : s - (⌊s⌋ : ℚ) < 1 := by linarith [Int.lt_floor_add_one s]
  have hmul : (s - (⌊s⌋ : ℚ)) * 100 = s * 100 - ((100 * ⌊s⌋ : ℤ) : ℚ) := by
    push_cast
    ring
  have hms : ⌊jsMod s 1 * 100⌋ = ⌊s * 100⌋ - 100 * ⌊s⌋ := by
    rw [hjs1, hmul, Int.floor_sub_int]
  have hfmt53 : formatTime (53 / 10) = "0:05.30" := by
    have d1 : (⌊(53 / 10 : ℚ) / 60⌋ : ℤ) = 0 := by norm_num
    have d2 : jsMod (53 / 10 : ℚ) 60 = 53 / 10 := by
      unfold jsMod truncInt
      rw [if_neg (by norm_num)]
      norm_num
    have d3 : (⌊(53 / 10 : ℚ)⌋ : ℤ) = 5 := by norm_num
    have d4 : jsMod (53 / 10 : ℚ) 1 = 3 / 10 := by
      unfold jsMod truncInt
      rw [div_one, if_neg (by norm_num)]
      rw [d3]
      norm_num
    have d5 : (⌊(3 / 10 : ℚ) * 100⌋ : ℤ) = 30 := by norm_num
    show toString ⌊(53 / 10 : ℚ) / 60⌋ ++ ":"
        ++ padStart (toString ⌊jsMod (53 / 10 : ℚ) 60⌋) 2 '0' ++ "."
        ++ padStart (toString ⌊jsMod (53 / 10 : ℚ) 1 * 100⌋) 2 '0' = "0:05.30"
    rw [d1, d2, d4, d3, d5]
    decide
  have hfmt12 : formatTime 12 = "0:12.00" := by
    have d1 : (⌊(12 : ℚ) / 60⌋ : ℤ) = 0 := by norm_num
    have d2 : jsMod (12 : ℚ) 60 = 12 := by
      unfold jsMod truncInt
      rw [if_neg (by norm_num)]
      norm_num
    have d3 : (⌊(12 : ℚ)⌋ : ℤ) = 12 := by norm_num
    have d4 : jsMod (12 : ℚ) 1 = 0 := by
      unfold jsMod truncInt
      rw [div_one, if_neg (by norm_num)]
      rw [d3]
      norm_num
    have d5 : (⌊(0 : ℚ) * 100⌋ : ℤ) = 0 := by norm_num
    show toString ⌊(12 : ℚ) / 60⌋ ++ ":"
        ++ padStart (toString ⌊jsMod (12 : ℚ) 60⌋) 2 '0' ++ "."
        ++ padStart (toString ⌊jsMod (12 : ℚ) 1 * 100⌋) 2 '0' = "0:12.00"
    rw [d1, d2, d4, d3, d5]
    decide
  refine ⟨rfl, rfl, hjs60, ?_, ?_, hms, ?_, ?_, ?_, hfmt53, ?_⟩
  · apply Int.floor_nonneg.mpr
    rw [hjs60]
    linarith
  · apply Int.floor_lt.mpr
    rw [hjs60]
    push_cast
    linarith
  · apply Int.floor_nonneg.mpr
    rw [hjs1]
    linarith
  · apply Int.floor_lt.mpr
    rw [hjs1]
    push_cast
    linarith
  · intro n hn0 hn100
    interval_cases n <;> decide
  · show "clip_" ++ formatTime (53 / 10) ++ "-" ++ formatTime 12 ++ ".wav"
      = "clip_0:05.30-0:12.00.wav"
    rw [hfmt53, hfmt12]
    decide

/-- Witness for C9 at the spec's own example times. -/
theorem format_filename_shape_witness :
    extractFilename (53 / 10) 12
      = "clip_" ++ formatTime (53 / 10) ++ "-" ++ formatTime 12 ++ ".wav" :=
  (format_filename_shape (53 / 10) 12 (by norm_num)).1

/- ---------------------------------------------------------------
   Selection-derived time range (claim C8).
   --------------------------------------------------------------- -/

lemma updateSelectionRange_eq (prev : Option TimeRange)
    (transcript : List TranscriptSegment) (ids : List ℤ) :
    updateSelectionRange prev transcript ids =
      if ids.length = 0 then none
      else
        match transcript.find? fun s =>
                s.id == (ids.mergeSort fun a b => decide (a ≤ b)).headI,
              transcript.find? fun s =>
                s.id == (ids.mergeSort fun a b => decide (a ≤ b)).getLastD 0 with
        | some firstSeg, some lastSeg => some ⟨firstSeg.start, lastSeg.stop⟩
        | _, _ => prev := rfl

lemma pairwise_head_le (x : ℤ) (t : List ℤ)
    (hp : (x :: t).Pairwise fun a b : ℤ => a ≤ b) : ∀ y ∈ x :: t, x ≤ y := by
  intro y hy
  rcases List.mem_cons.mp hy with rfl | h
  · exact le_refl y
  · exact (List.pairwise_cons.mp hp).1 y h

lemma pairwise_getLast?_max :
    ∀ (l : List ℤ) (m : ℤ), (l.Pairwise fun a b : ℤ => a ≤ b) →
      l.getLast? = some m → m ∈ l ∧ ∀ y ∈ l, y ≤ m := by
  intro l
  induction l with
  | nil => intro m _ hl; simp at hl
  | cons x t ih =>
    intro m hp hl
    rcases t with _ | ⟨z, t2⟩
    · simp at hl
      subst hl
      simp
    · rw [List.getLast?_cons_cons] at hl
      obtain ⟨hm, hall⟩ := ih m (List.pairwise_cons.mp hp).2 hl
      refine ⟨List.mem_cons_of_mem _ hm, ?_⟩
      intro y hy
      rcases List.mem_cons.mp hy with rfl | hy2
      · exact (List.pairwise_cons.mp hp).1 m hm
      · exact hall y hy2

/-- C8: with an empty selection the derived range is cleared; with a
non-empty selection whose smallest id is `minId` (the earliest selected
segment) and largest id is `maxId` (the latest selected segment), and
whose segment lookups succeed, the range is recomputed from scratch as
`[start of the minId segment, end of the maxId segment]`, whatever the
previous value was. -/
theorem selection_range_update :
    ∀ (prev : Option TimeRange) (transcript : List TranscriptSegment)
      (ids : List ℤ),
      (ids = [] → updateSelectionRange prev transcript ids = none)
      ∧ ∀ (minId maxId : ℤ) (f l : TranscriptSegment),
          minId ∈ ids → (∀ a ∈ ids, minId ≤ a) →
          maxId ∈ ids → (∀ a ∈ ids, a ≤ maxId) →
          (transcript.find? fun seg => seg.id == minId) = some f →
          (transcript.find? fun seg => seg.id == maxId) = some l →
          updateSelectionRange prev transcript ids = some ⟨f.start, l.stop⟩ := by
  intro prev transcript ids
  constructor
  · intro h
    subst h
    rfl
  · intro minId maxId f l hminmem hminle hmaxmem hmaxle hfindf hfindl
    have hne : ids.length ≠ 0 := by
      intro h
      rw [List.length_eq_zero] at h
      subst h
      simp at hminmem
    have hperm := List.mergeSort_perm ids fun a b => decide (a ≤ b)
    have hpw : (ids.mergeSort fun a b => decide (a ≤ b)).Pairwise
        fun a b : ℤ => a ≤ b := by
      have h := @List.sorted_mergeSort ℤ (fun a b : ℤ => decide (a ≤ b))
        (fun a b c h1 h2 => by
          simp only [decide_eq_true_eq] at h1 h2 ⊢
          omega)
        (fun a b => by
          simp only [Bool.or_eq_true, decide_eq_true_eq]
          omega)
        ids
      exact h.imp fun hab => of_decide_eq_true hab
    have hmem_iff : ∀ a : ℤ,
        (a ∈ ids.mergeSort fun a b => decide (a ≤ b)) ↔ a ∈ ids :=
      fun a => hperm.mem_iff
    obtain ⟨x, t, hxt⟩ : ∃ x t,
        (ids.mergeSort fun a b => decide (a ≤ b)) = x :: t := by
      cases hms : ids.mergeSort fun a b => decide (a ≤ b) with
      | nil =>
        have hlen := @List.length_mergeSort ℤ (fun a b : ℤ => decide (a ≤ b)) ids
        rw [hms] at hlen
        simp at hlen
        exact absurd hlen.symm hne
      | cons x t => exact ⟨x, t, rfl⟩
    have hhead : (ids.mergeSort fun a b => decide (a ≤ b)).headI = minId := by
      rw [hxt]
      show x = minId
      have hx_mem : x ∈ ids := (hmem_iff x).mp (by rw [hxt]; exact List.mem_cons_self _ _)
      have hmin_sorted : minId ∈ x :: t := by
        rw [← hxt]
        exact (hmem_iff minId).mpr hminmem
      have h2 : x ≤ minId :=
        pairwise_head_le x t (by rw [← hxt]; exact hpw) minId hmin_sorted
      exact le_antisymm h2 (hminle x hx_mem)
    have hne2 : (ids.mergeSort fun a b => decide (a ≤ b)) ≠ [] := by
      rw [hxt]
      simp
    have hlast : (ids.mergeSort fun a b => decide (a ≤ b)).getLastD 0 = maxId := by
      have hsome := List.getLast?_eq_getLast
        (ids.mergeSort fun a b => decide (a ≤ b)) hne2
      obtain ⟨hm, hall⟩ := pairwise_getLast?_max _ _ hpw hsome
      have h1 : (ids.mergeSort fun a b => decide (a ≤ b)).getLast hne2 ≤ maxId :=
        hmaxle _ ((hmem_iff _).mp hm)
      have h2 : maxId ≤ (ids.mergeSort fun a b => decide (a ≤ b)).getLast hne2 :=
        hall maxId ((hmem_iff maxId).mpr hmaxmem)
      rw [List.getLastD_eq_getLast?, hsome]
      exact le_antisymm h1 h2
    rw [updateSelectionRange_eq, if_neg hne, hhead, hlast, hfindf, hfindl]

/-- Witness for C8: selecting segments 2 and 1 of a two-segment transcript
yields the range `[0, 2]`. -/
theorem selection_range_update_witness :
    updateSelectionRange none
      [⟨1, "a", 0, 1⟩, ⟨2, "b", 1, 2⟩] [2, 1] = some ⟨0, 2⟩ :=
  (selection_range_update none [⟨1, "a", 0, 1⟩, ⟨2, "b", 1, 2⟩] [2, 1]).2
    1 2 ⟨1, "a", 0, 1⟩ ⟨2, "b", 1, 2⟩
    (by decide) (by decide) (by decide) (by decide) (by decide) (by decide)
